import Mathlib

/-!
Verification development for the enrichment-bot frontend core: the SSE frame
decoder and event parser (`frontend/src/lib/api.ts`, `analyzeUrlV2`,
`checkDuplicate`) and the `useEnrichment` hook (step ledger, duplicate gate,
orchestrator state).  JavaScript strings are modelled as `List Char`, bytes as
`Nat`, JSON values as an inductive `Json`, and the React state of the hook as
an explicit record threaded through the operations.
-/

namespace EnrichmentBot

/-! ## JavaScript string primitives -/

/-- Whitespace recognised by `String.prototype.trim` (ASCII part plus NBSP and BOM). -/
def jsIsWs (c : Char) : Bool :=
  c = ' ' || c = '\t' || c = '\n' || c = '\r' || c = '\x0b' || c = '\x0c' ||
  c.toNat = 0xA0 || c.toNat = 0xFEFF

/-- Model of `String.prototype.trim`. -/
def jsTrim (cs : List Char) : List Char :=
  ((cs.dropWhile jsIsWs).reverse.dropWhile jsIsWs).reverse

/-- Model of `String.prototype.toLowerCase`, on the ASCII range (the only range
the analysed strings use). -/
def jsToLower (c : Char) : Char :=
  if 'A' ≤ c ∧ c ≤ 'Z' then Char.ofNat (c.toNat + 32) else c

/-- Model of `String.prototype.split` with a one-character separator.  Always
returns a non-empty list; the last element is the fragment after the final
separator. -/
def splitOnChar (sep : Char) : List Char → List (List Char)
  | [] => [[]]
  | c :: cs =>
    if c = sep then [] :: splitOnChar sep cs
    else
      match splitOnChar sep cs with
      | [] => [[c]]
      | l :: ls => (c :: l) :: ls

/-- Last element of a fragment list (the `lines.pop()` of the source); `[]` on
an empty list, which `splitOnChar` never produces. -/
def lastFrag : List (List Char) → List Char
  | [] => []
  | [x] => x
  | _ :: x :: xs => lastFrag (x :: xs)

/-- First element of a fragment list (the `split('/')[0]` of the source). -/
def headFrag : List (List Char) → List Char
  | [] => []
  | x :: _ => x

/-- Prepend `x` to the first fragment of a fragment list. -/
def consFirst (x : List Char) : List (List Char) → List (List Char)
  | [] => []
  | h :: t => (x ++ h) :: t

/-! ## JSON values and `JSON.parse` -/

/-- JSON values produced by `JSON.parse`.  Numbers are kept as rationals. -/
inductive Json where
  | null : Json
  | bool (b : Bool) : Json
  | num (q : Rat) : Json
  | str (s : List Char) : Json
  | arr (elems : List Json) : Json
  | obj (fields : List (List Char × Json)) : Json

/-- JSON inter-token whitespace. -/
def isJsonWs (c : Char) : Bool := c = ' ' || c = '\t' || c = '\n' || c = '\r'

def skipWs (cs : List Char) : List Char := cs.dropWhile isJsonWs

def hexVal (c : Char) : Option Nat :=
  if '0' ≤ c ∧ c ≤ '9' then some (c.toNat - 48)
  else if 'a' ≤ c ∧ c ≤ 'f' then some (c.toNat - 87)
  else if 'A' ≤ c ∧ c ≤ 'F' then some (c.toNat - 55)
  else none

def escChar (c : Char) : Option Char :=
  if c = '"' then some '"'
  else if c = '\\' then some '\\'
  else if c = '/' then some '/'
  else if c = 'b' then some '\x08'
  else if c = 'f' then some '\x0c'
  else if c = 'n' then some '\n'
  else if c = 'r' then some '\r'
  else if c = 't' then some '\t'
  else none

/-- Body of a JSON string literal, after the opening quote.  Returns the decoded
characters and the remaining input after the closing quote. -/
def parseStrBody : Nat → List Char → Option (List Char × List Char)
  | 0, _ => none
  | _, [] => none
  | f + 1, c :: rest =>
    if c = '"' then some ([], rest)
    else if c = '\\' then
      match rest with
      | [] => none
      | e :: r =>
        if e = 'u' then
          match r with
          | h1 :: h2 :: h3 :: h4 :: r2 =>
            match hexVal h1, hexVal h2, hexVal h3, hexVal h4 with
            | some a, some b, some c2, some d =>
              (parseStrBody f r2).map
                (fun p => (Char.ofNat (((a * 16 + b) * 16 + c2) * 16 + d) :: p.1, p.2))
            | _, _, _, _ => none
          | _ => none
        else
          match escChar e with
          | some ec => (parseStrBody f r).map (fun p => (ec :: p.1, p.2))
          | none => none
    else if c.toNat < 0x20 then none
    else (parseStrBody f rest).map (fun p => (c :: p.1, p.2))

def digitVal (c : Char) : Option Nat :=
  if '0' ≤ c ∧ c ≤ '9' then some (c.toNat - 48) else none

/-- Longest prefix of decimal digits, as digit values, with the rest. -/
def takeDigits : List Char → List Nat × List Char
  | [] => ([], [])
  | c :: cs =>
    match digitVal c with
    | some d =>
      let p := takeDigits cs
      (d :: p.1, p.2)
    | none => ([], c :: cs)

def digitsToNat (ds : List Nat) : Nat := ds.foldl (fun a d => a * 10 + d) 0

/-- JSON number, per the JSON grammar: optional minus, integer part (`0` or a
nonzero-led digit run), optional fraction, optional exponent. -/
def parseNumber (cs : List Char) : Option (Rat × List Char) :=
  let signed : Bool × List Char :=
    match cs with
    | '-' :: r => (true, r)
    | _ => (false, cs)
  let neg := signed.1
  let intRes : Option (Nat × List Char) :=
    match signed.2 with
    | '0' :: r => some (0, r)
    | c :: _ =>
      if '1' ≤ c ∧ c ≤ '9' then
        let p := takeDigits signed.2
        some (digitsToNat p.1, p.2)
      else none
    | [] => none
  match intRes with
  | none => none
  | some (ip, cs2) =>
    let fracRes : Option (Rat × List Char) :=
      match cs2 with
      | '.' :: r =>
        let p := takeDigits r
        if p.1 = [] then none
        else some ((digitsToNat p.1 : Rat) / ((10 : Rat) ^ p.1.length), p.2)
      | _ => some (0, cs2)
    match fracRes with
    | none => none
    | some (fq, cs3) =>
      let expRes : Option (Bool × Nat × List Char) :=
        match cs3 with
        | c :: r =>
          if c = 'e' ∨ c = 'E' then
            let signedE : Bool × List Char :=
              match r with
              | '-' :: r2 => (true, r2)
              | '+' :: r2 => (false, r2)
              | _ => (false, r)
            let p := takeDigits signedE.2
            if p.1 = [] then none
            else some (signedE.1, digitsToNat p.1, p.2)
          else some (false, 0, cs3)
        | [] => some (false, 0, cs3)
      match expRes with
      | none => none
      | some (eneg, e, cs4) =>
        let base : Rat := (ip : Rat) + fq
        let scaled : Rat :=
          if eneg then base / ((10 : Rat) ^ e) else base * ((10 : Rat) ^ e)
        some (if neg then -scaled else scaled, cs4)

mutual

/-- A JSON value, with fuel bounding the recursion depth; the top-level entry
point passes `length + 1`, which is always sufficient because every recursive
call consumes at least one character first. -/
def parseValue : Nat → List Char → Option (Json × List Char)
  | 0, _ => none
  | f + 1, cs =>
    match skipWs cs with
    | [] => none
    | c :: rest =>
      if c = '"' then
        match parseStrBody (rest.length + 1) rest with
        | some (s, r) => some (.str s, r)
        | none => none
      else if c = '{' then
        match skipWs rest with
        | '}' :: r => some (.obj [], r)
        | _ => (parseMembers f rest).map (fun p => (.obj p.1, p.2))
      else if c = '[' then
        match skipWs rest with
        | ']' :: r => some (.arr [], r)
        | _ => (parseElems f rest).map (fun p => (.arr p.1, p.2))
      else if c = 't' then
        match rest with
        | 'r' :: 'u' :: 'e' :: r => some (.bool true, r)
        | _ => none
      else if c = 'f' then
        match rest with
        | 'a' :: 'l' :: 's' :: 'e' :: r => some (.bool false, r)
        | _ => none
      else if c = 'n' then
        match rest with
        | 'u' :: 'l' :: 'l' :: r => some (.null, r)
        | _ => none
      else
        (parseNumber (c :: rest)).map (fun p => (.num p.1, p.2))

/-- One or more `"key" : value` members, ending at the closing brace. -/
def parseMembers : Nat → List Char → Option (List (List Char × Json) × List Char)
  | 0, _ => none
  | f + 1, cs =>
    match skipWs cs with
    | '"' :: rest =>
      match parseStrBody (rest.length + 1) rest with
      | none => none
      | some (key, r1) =>
        match skipWs r1 with
        | ':' :: r2 =>
          match parseValue f r2 with
          | none => none
          | some (v, r3) =>
            match skipWs r3 with
            | ',' :: r4 => (parseMembers f r4).map (fun p => ((key, v) :: p.1, p.2))
            | '}' :: r4 => some ([(key, v)], r4)
            | _ => none
        | _ => none
    | _ => none

/-- One or more array elements, ending at the closing bracket. -/
def parseElems : Nat → List Char → Option (List Json × List Char)
  | 0, _ => none
  | f + 1, cs =>
    match parseValue f cs with
    | none => none
    | some (v, r1) =>
      match skipWs r1 with
      | ',' :: r2 => (parseElems f r2).map (fun p => (v :: p.1, p.2))
      | ']' :: r2 => some ([v], r2)
      | _ => none

end

/-- Model of `JSON.parse`: a single JSON value with only whitespace around it;
anything else fails (the promise rejects / the call throws). -/
def jsonParse (cs : List Char) : Option Json :=
  match parseValue (cs.length + 1) cs with
  | some (v, rest) => if skipWs rest = [] then some v else none
  | none => none

/-- Property lookup on a parsed JSON value (`msg.type`, `error.detail`, …).
`JSON.parse` keeps the last of duplicate keys, so the lookup prefers the last
binding; access on a non-object yields `none` (JS `undefined`). -/
def lookupField : List (List Char × Json) → List Char → Option Json
  | [], _ => none
  | (k, v) :: rest, key =>
    match lookupField rest key with
    | some v2 => some v2
    | none => if k = key then some v else none

def getField (j : Json) (key : List Char) : Option Json :=
  match j with
  | .obj fields => lookupField fields key
  | _ => none

/-- JavaScript truthiness of a JSON-derived value. -/
def jsTruthy : Json → Bool
  | .null => false
  | .bool b => b
  | .num q => if q = 0 then false else true
  | .str s => if s = [] then false else true
  | .arr _ => true
  | .obj _ => true

mutual

/-- Model of JS `String(v)` for JSON-derived values (as used by
`new Error(error.detail)`). -/
def jsDisplay : Json → String
  | .null => "null"
  | .bool true => "true"
  | .bool false => "false"
  | .num q => if q.den = 1 then toString q.num else toString q
  | .str s => String.mk s
  | .arr xs => jsDisplayList xs
  | .obj _ => "[object Object]"

def jsDisplayList : List Json → String
  | [] => ""
  | [x] => jsDisplay x
  | x :: y :: xs => jsDisplay x ++ "," ++ jsDisplayList (y :: xs)

end

/-! ## SSE event parser (the per-line body of the read loop in `analyzeUrlV2`) -/

/-- The six-character marker `data: ` a payload line must start with. -/
def dataMarker : List Char := "data: ".toList

def typeKey : List Char := "type".toList
def stepKey : List Char := "step".toList
def statusKey : List Char := "status".toList
def durationKey : List Char := "duration_ms".toList
def detailKey : List Char := "detail".toList
def dataKey : List Char := "data".toList

def stepTag : List Char := "step".toList
def resultTag : List Char := "result".toList
def errorTag : List Char := "error".toList

/-- The object handed to `onStep`: the four fields are copied verbatim from the
parsed message (absent fields stay absent, as JS `undefined`). -/
structure StepPayload where
  step : Option Json
  status : Option Json
  duration_ms : Option Json
  detail : Option Json

/-- A parsed pipeline event: which callback fires and with what argument. -/
inductive SseEvent where
  | step (p : StepPayload)
  | result (data : Option Json)
  | error (detail : Json)

/-- `msg.detail || 'Unknown pipeline error'` of the `error` branch. -/
def errorDetail (msg : Json) : Json :=
  match getField msg detailKey with
  | some v => if jsTruthy v then v else .str "Unknown pipeline error".toList
  | none => .str "Unknown pipeline error".toList

/-- One decoded line of the stream: `none` when no callback fires.  Mirrors the
loop body: `data: ` marker check, `slice(6).trim()`, `JSON.parse` inside
`try`, then dispatch on `msg.type`. -/
def parseLine (line : List Char) : Option SseEvent :=
  if dataMarker.isPrefixOf line then
    let jsonStr := jsTrim (line.drop 6)
    if jsonStr = [] then none
    else
      match jsonParse jsonStr with
      | none => none
      | some msg =>
        match getField msg typeKey with
        | some (.str t) =>
          if t = stepTag then
            some (.step ⟨getField msg stepKey, getField msg statusKey,
              getField msg durationKey, getField msg detailKey⟩)
          else if t = resultTag then some (.result (getField msg dataKey))
          else if t = errorTag then some (.error (errorDetail msg))
          else none
        | _ => none
  else none

/-! ## Incremental UTF-8 decoding (`TextDecoder` with `stream: true`) -/

/-- State of the WHATWG UTF-8 decoder: the partial code point, how many
continuation bytes are still needed and already seen, and the valid range for
the next continuation byte. -/
structure Utf8State where
  codepoint : Nat
  needed : Nat
  seen : Nat
  lower : Nat
  upper : Nat
deriving DecidableEq, Repr

def utf8Init : Utf8State := ⟨0, 0, 0, 0x80, 0xBF⟩

/-- Replacement character emitted for invalid sequences. -/
def replChar : Char := '�'

/-- Handling of a byte in the initial state. -/
def utf8Start (b : Nat) : Utf8State × List Char :=
  if b ≤ 0x7F then (utf8Init, [Char.ofNat b])
  else if 0xC2 ≤ b ∧ b ≤ 0xDF then
    ({ utf8Init with needed := 1, codepoint := b % 0x20 }, [])
  else if 0xE0 ≤ b ∧ b ≤ 0xEF then
    ({ codepoint := b % 0x10, needed := 2, seen := 0,
       lower := if b = 0xE0 then 0xA0 else 0x80,
       upper := if b = 0xED then 0x9F else 0xBF }, [])
  else if 0xF0 ≤ b ∧ b ≤ 0xF4 then
    ({ codepoint := b % 0x8, needed := 3, seen := 0,
       lower := if b = 0xF0 then 0x90 else 0x80,
       upper := if b = 0xF4 then 0x8F else 0xBF }, [])
  else (utf8Init, [replChar])

/-- One byte of the WHATWG UTF-8 decode algorithm in non-fatal mode: an
out-of-range continuation byte emits U+FFFD and is reprocessed as a start
byte. -/
def utf8Step (s : Utf8State) (b : Nat) : Utf8State × List Char :=
  if s.needed = 0 then utf8Start b
  else if s.lower ≤ b ∧ b ≤ s.upper then
    let cp := s.codepoint * 64 + b % 64
    if s.seen + 1 = s.needed then (utf8Init, [Char.ofNat cp])
    else ({ codepoint := cp, needed := s.needed, seen := s.seen + 1,
            lower := 0x80, upper := 0xBF }, [])
  else
    let r := utf8Start b
    (r.1, replChar :: r.2)

/-- Decode a chunk of bytes, carrying the decoder state across the chunk
boundary (`decoder.decode(value, { stream: true })`). -/
def decodeBytesAux : Utf8State → List Nat → Utf8State × List Char
  | s, [] => (s, [])
  | s, b :: bs =>
    let r1 := utf8Step s b
    let r2 := decodeBytesAux r1.1 bs
    (r2.1, r1.2 ++ r2.2)

/-! ## The read loop of `analyzeUrlV2`: buffer, split on newline, parse lines -/

/-- State carried across chunks by the read loop: the decoder state and the
retained incomplete text fragment (`buffer`). -/
structure StreamState where
  dec : Utf8State
  buffer : List Char
deriving Repr

def streamInit : StreamState := ⟨utf8Init, []⟩

/-- One iteration of the read loop on one byte chunk: append decoded text to
the buffer, split on `\n`, keep the last fragment as the new buffer, and parse
every complete line. -/
def processChunk (st : StreamState) (chunk : List Nat) : StreamState × List SseEvent :=
  let d := decodeBytesAux st.dec chunk
  let parts := splitOnChar '\n' (st.buffer ++ d.2)
  (⟨d.1, lastFrag parts⟩, parts.dropLast.filterMap parseLine)

/-- The whole read loop over a sequence of chunks; on stream end the remaining
buffer is discarded. -/
def processChunks : StreamState → List (List Nat) → StreamState × List SseEvent
  | st, [] => (st, [])
  | st, c :: cs =>
    let r1 := processChunk st c
    let r2 := processChunks r1.1 cs
    (r2.1, r1.2 ++ r2.2)

/-- The sequence of parsed events delivered for a chunked byte stream. -/
def sseEvents (chunks : List (List Nat)) : List SseEvent :=
  (processChunks streamInit chunks).2

/-! ## Step ledger (the `setSteps` reducer of `useEnrichment.runPipeline`) -/

/-- `PipelineStep` of `frontend/src/lib/types.ts`. -/
structure PipelineStep where
  step : String
  status : String
  duration_ms : Option Rat
  detail : Option String
deriving DecidableEq, Repr

/-- The reducer passed to `setSteps`: find the first record whose `step` field
equals the incoming event's `step`; replace it in place if found, else append
the incoming record. -/
def stepLedgerReduce (prev : List PipelineStep) (ev : PipelineStep) : List PipelineStep :=
  match prev.findIdx? (fun s => s.step == ev.step) with
  | some idx => prev.set idx ev
  | none => prev ++ [ev]

/-- Recursive reference form of `stepLedgerReduce`, used by the proofs. -/
def reduceAux : List PipelineStep → PipelineStep → List PipelineStep
  | [], ev => [ev]
  | r :: rest, ev => if r.step = ev.step then ev :: rest else r :: reduceAux rest ev

/-- Append a key to an accumulator unless it is already present. -/
def insertKey (acc : List String) (k : String) : List String :=
  if k ∈ acc then acc else acc ++ [k]

/-- Keys of a sequence, in order of first appearance. -/
def firstSeenKeys (ks : List String) : List String := ks.foldl insertKey []

/-- Ledger obtained by reducing a sequence of step events from the empty list. -/
def ledgerOf (evs : List PipelineStep) : List PipelineStep :=
  evs.foldl stepLedgerReduce []

/-! ## Duplicate check (`checkDuplicate` of `api.ts`) -/

/-- `DuplicateCheckResult` of `types.ts`. -/
structure DuplicateCheckResult where
  «exists» : Bool
  domain : Option String
  last_analyzed : Option String
deriving DecidableEq, Repr

/-- Environment's answer to the duplicate-lookup fetch: the transport may
fail, or an HTTP response arrives whose body may or may not parse as JSON. -/
inductive LookupResponse where
  | transportError : LookupResponse
  | httpResponse (ok : Bool) (body : Option DuplicateCheckResult) : LookupResponse
deriving DecidableEq, Repr

/-- `checkDuplicate`: a non-ok status returns `{ exists: false }`; a transport
error or a body that fails to parse is caught and also returns
`{ exists: false }`. -/
def checkDuplicate : LookupResponse → DuplicateCheckResult
  | .transportError => ⟨false, none, none⟩
  | .httpResponse ok body =>
    if ok then
      match body with
      | some r => r
      | none => ⟨false, none, none⟩
    else ⟨false, none, none⟩

/-! ## Orchestrator (`useEnrichment`) -/

/-- The observable state of the hook, plus the internal pending-URL slot. -/
structure RunState where
  results : Option Json
  steps : List PipelineStep
  isLoading : Bool
  error : Option String
  duplicate : Option DuplicateCheckResult
  pendingUrl : Option String

def initialState : RunState := ⟨none, [], false, none, none, none⟩

/-- An invocation of one of the three stream callbacks, at the callback's
declared types. -/
inductive AppEvent where
  | step (s : PipelineStep)
  | result (data : Json)
  | error (msg : String)

/-- Environment's answer to the pipeline fetch of `analyzeUrlV2`: a non-ok
status with an optional JSON error body, an ok response without a readable
body, or an ok streamed response delivering a sequence of callback events. -/
inductive PipelineResponse where
  | failure (status : Nat) (body : Option Json) : PipelineResponse
  | noBody : PipelineResponse
  | stream (events : List AppEvent) : PipelineResponse

/-- Message of the error thrown for a non-ok response:
`error.detail || `HTTP ${status}: Analysis failed``, where a body that fails
to parse is replaced by `{ detail: 'Analysis failed' }`. -/
def failureMessage (status : Nat) (body : Option Json) : String :=
  match body with
  | none => "Analysis failed"
  | some j =>
    match getField j detailKey with
    | some d =>
      if jsTruthy d then jsDisplay d
      else "HTTP " ++ toString status ++ ": Analysis failed"
    | none => "HTTP " ++ toString status ++ ": Analysis failed"

/-- Outcome of `analyzeUrlV2` as seen by `runPipeline`: either the promise
rejects with an error message, or it resolves after the callbacks fired. -/
def analyzeUrlV2Model : PipelineResponse → Except String (List AppEvent)
  | .failure status body => .error (failureMessage status body)
  | .noBody => .error "No response body"
  | .stream events => .ok events

/-- Effect of one callback on the state: `onStep` applies the ledger reducer,
`onResult` stores the payload, `onError` stores the message. -/
def applyAppEvent (st : RunState) : AppEvent → RunState
  | .step s => { st with steps := stepLedgerReduce st.steps s }
  | .result d => { st with results := some d }
  | .error m => { st with error := some m }

/-- The head of `runPipeline`: `isLoading := true` and the four cleared
fields, before the fetch is issued. -/
def preRun (st : RunState) : RunState :=
  { st with isLoading := true, error := none, results := none,
            steps := [], duplicate := none }

/-- `useEnrichment.runPipeline`: clear state, run `analyzeUrlV2` feeding the
callbacks, store a thrown error's message in `error`, and in the `finally`
set `isLoading := false`.  Also returns the list of pipeline requests issued
(always exactly one, for `url`). -/
def runPipeline (st : RunState) (url : String) (resp : PipelineResponse) :
    RunState × List String :=
  let st1 := preRun st
  let st2 :=
    match analyzeUrlV2Model resp with
    | .ok events => events.foldl applyAppEvent st1
    | .error msg => { st1 with error := some msg }
  ({ st2 with isLoading := false }, [url])

/-- Domain derivation of `useEnrichment.analyze`:
`url.trim().replace(/^https?:\/\//, '').split('/')[0].toLowerCase()`. -/
def stripScheme (cs : List Char) : List Char :=
  if ("https://".toList).isPrefixOf cs then cs.drop 8
  else if ("http://".toList).isPrefixOf cs then cs.drop 7
  else cs

def extractDomain (url : String) : String :=
  String.mk ((headFrag (splitOnChar '/' (stripScheme (jsTrim url.toList)))).map jsToLower)

/-- The calls the orchestrator makes to its collaborators during `analyze`. -/
structure CallTrace where
  lookupDomain : String
  pipelineRequests : List String
deriving DecidableEq, Repr

/-- `useEnrichment.analyze`: derive the domain, run the duplicate lookup; if
it reports a duplicate, store the result and the pending URL and stop;
otherwise run the pipeline immediately with the original URL. -/
def analyze (st : RunState) (url : String) (lookup : LookupResponse)
    (resp : PipelineResponse) : RunState × CallTrace :=
  let domain := extractDomain url
  let dupResult := checkDuplicate lookup
  if dupResult.«exists» then
    ({ st with duplicate := some dupResult, pendingUrl := some url }, ⟨domain, []⟩)
  else
    let r := runPipeline st url resp
    (r.1, ⟨domain, r.2⟩)

/-- `useEnrichment.confirmAnalyze`: guarded by the truthiness of `pendingUrl`
(so an empty-string pending URL behaves like no pending submission); clears
the duplicate display, reruns the pipeline for the pending URL, then clears
the pending slot. -/
def confirmAnalyze (st : RunState) (resp : PipelineResponse) :
    RunState × List String :=
  match st.pendingUrl with
  | some url =>
    if url = "" then (st, [])
    else
      let r := runPipeline { st with duplicate := none } url resp
      ({ r.1 with pendingUrl := none }, r.2)
  | none => (st, [])

/-- `useEnrichment.dismissDuplicate`. -/
def dismissDuplicate (st : RunState) : RunState :=
  { st with duplicate := none, pendingUrl := none }

/-- `useEnrichment.reset`: clears `results`, `steps`, `error`, `duplicate` and
the pending slot.  (It does not touch `isLoading`.) -/
def reset (st : RunState) : RunState :=
  { st with results := none, steps := [], error := none, duplicate := none,
            pendingUrl := none }

/-! ## The spec's wording of the domain derivation, for comparison -/

/-- Modelled from the spec's words (§4.5): "derive a lookup key by stripping a
leading `http://` or `https://` scheme, taking the substring before the first
`/`, and lowercasing it" — with no trimming step. -/
def claimDomain (url : String) : String :=
  String.mk (((stripScheme url.toList).takeWhile (fun c => c ≠ '/')).map jsToLower)

/-- The spec's derivation applied after `trim()`, the amendment the code
forces. -/
def claimDomainTrimmed (url : String) : String :=
  String.mk (((stripScheme (jsTrim url.toList)).takeWhile (fun c => c ≠ '/')).map jsToLower)

/-- Predicate over lookup outcomes: the lookup call itself failed (transport
error, non-success response, or unparseable response body). -/
def lookupFailed (l : LookupResponse) : Prop :=
  l = .transportError ∨ (∃ b, l = .httpResponse false b) ∨ l = .httpResponse true none

end EnrichmentBot

namespace EnrichmentBot

theorem stepLedgerReduce_eq_aux (prev : List PipelineStep) (ev : PipelineStep) :
    stepLedgerReduce prev ev = reduceAux prev ev := by
  induction prev with
  | nil => rfl
  | cons r rest ih =>
    by_cases h : r.step = ev.step
    · simp [stepLedgerReduce, reduceAux, List.findIdx?_cons, h]
    · have hb : (r.step == ev.step) = false := by simp [h]
      cases hfind : List.findIdx? (fun s => s.step == ev.step) rest with
      | none =>
        have ih2 : rest ++ [ev] = reduceAux rest ev := by
          simpa [stepLedgerReduce, hfind] using ih
        simp [stepLedgerReduce, reduceAux, List.findIdx?_cons, hb,
          List.findIdx?_succ, hfind, h, ← ih2]
      | some i =>
        have ih2 : rest.set i ev = reduceAux rest ev := by
          simpa [stepLedgerReduce, hfind] using ih
        simp [stepLedgerReduce, reduceAux, List.findIdx?_cons, hb,
          List.findIdx?_succ, hfind, h, ← ih2]

theorem keys_reduceAux (prev : List PipelineStep) (ev : PipelineStep) :
    (reduceAux prev ev).map PipelineStep.step =
      insertKey (prev.map PipelineStep.step) ev.step := by
  induction prev with
  | nil => simp [reduceAux, insertKey]
  | cons r rest ih =>
    by_cases h : r.step = ev.step
    · simp only [reduceAux, if_pos h, List.map_cons, insertKey]
      rw [if_pos]
      · simp [h]
      · exact h ▸ List.mem_cons_self _ _
    · simp only [reduceAux, if_neg h, List.map_cons, ih, insertKey]
      by_cases hm : ev.step ∈ rest.map PipelineStep.step
      · rw [if_pos hm, if_pos (List.mem_cons_of_mem _ hm)]
      · rw [if_neg hm, if_neg]
        · simp
        · intro hc
          rcases List.mem_cons.mp hc with hc | hc
          · exact h hc.symm
          · exact hm hc

theorem keys_foldl (evs : List PipelineStep) (L : List PipelineStep) :
    ((evs.foldl stepLedgerReduce L).map PipelineStep.step) =
      (evs.map PipelineStep.step).foldl insertKey (L.map PipelineStep.step) := by
  induction evs generalizing L with
  | nil => rfl
  | cons e es ih =>
    simp only [List.foldl_cons, List.map_cons, ih, stepLedgerReduce_eq_aux,
      keys_reduceAux]

theorem insertKey_nodup {acc : List String} (h : acc.Nodup) (k : String) :
    (insertKey acc k).Nodup := by
  unfold insertKey
  by_cases hm : k ∈ acc
  · rwa [if_pos hm]
  · rw [if_neg hm]
    simp [List.nodup_append, h, hm]

theorem foldl_insertKey_nodup (ks : List String) :
    ∀ acc : List String, acc.Nodup → (ks.foldl insertKey acc).Nodup := by
  induction ks with
  | nil => intro acc h; exact h
  | cons k ks ih =>
    intro acc h
    exact ih _ (insertKey_nodup h k)

/-! ### Splitting on newlines -/

theorem splitOnChar_ne_nil (sep : Char) (cs : List Char) :
    splitOnChar sep cs ≠ [] := by
  cases cs with
  | nil => simp [splitOnChar]
  | cons c cs =>
    by_cases h : c = sep
    · simp [splitOnChar, h]
    · simp only [splitOnChar, if_neg h]
      cases splitOnChar sep cs <;> simp

theorem lastFrag_cons_of_ne_nil (x : List Char) {t : List (List Char)}
    (h : t ≠ []) : lastFrag (x :: t) = lastFrag t := by
  cases t with
  | nil => exact absurd rfl h
  | cons y ys => rfl

theorem lastFrag_append_of_ne_nil (xs : List (List Char)) {ys : List (List Char)}
    (h : ys ≠ []) : lastFrag (xs ++ ys) = lastFrag ys := by
  induction xs with
  | nil => rfl
  | cons x xs ih =>
    have hne : xs ++ ys ≠ [] := by
      intro hc
      exact h (List.append_eq_nil.mp hc).2
    rw [List.cons_append, lastFrag_cons_of_ne_nil x hne, ih]

theorem splitOnChar_cons_of_eq {sep c : Char} (cs : List Char) (h : c = sep) :
    splitOnChar sep (c :: cs) = [] :: splitOnChar sep cs := by
  simp [splitOnChar, h]

theorem splitOnChar_cons_of_ne {sep c : Char} (cs : List Char) (h : ¬c = sep) :
    splitOnChar sep (c :: cs) = consFirst [c] (splitOnChar sep cs) := by
  cases hcs : splitOnChar sep cs with
  | nil => exact absurd hcs (splitOnChar_ne_nil sep cs)
  | cons l ls => simp [splitOnChar, h, hcs, consFirst]

theorem consFirst_consFirst (x y : List Char) (p : List (List Char)) :
    consFirst x (consFirst y p) = consFirst (x ++ y) p := by
  cases p <;> simp [consFirst]

theorem splitOnChar_append (sep : Char) (a b : List Char) :
    splitOnChar sep (a ++ b) =
      (splitOnChar sep a).dropLast ++
        consFirst (lastFrag (splitOnChar sep a)) (splitOnChar sep b) := by
  induction a with
  | nil =>
    cases hb : splitOnChar sep b with
    | nil => exact absurd hb (splitOnChar_ne_nil sep b)
    | cons h t => simp [splitOnChar, consFirst, lastFrag, hb]
  | cons c cs ih =>
    by_cases h : c = sep
    · rw [List.cons_append, splitOnChar_cons_of_eq _ h, splitOnChar_cons_of_eq _ h, ih]
      cases hcs : splitOnChar sep cs with
      | nil => exact absurd hcs (splitOnChar_ne_nil sep cs)
      | cons l ls =>
        rw [List.dropLast_cons_of_ne_nil (by simp : l :: ls ≠ []),
          lastFrag_cons_of_ne_nil [] (by simp : l :: ls ≠ [])]
        simp
    · rw [List.cons_append, splitOnChar_cons_of_ne _ h, splitOnChar_cons_of_ne _ h, ih]
      cases hcs : splitOnChar sep cs with
      | nil => exact absurd hcs (splitOnChar_ne_nil sep cs)
      | cons l ls =>
        cases ls with
        | nil =>
          rw [List.dropLast_single, List.nil_append, consFirst_consFirst]
          show consFirst ([c] ++ l) (splitOnChar sep b) =
            (consFirst [c] [l]).dropLast ++
              consFirst (lastFrag (consFirst [c] [l])) (splitOnChar sep b)
          simp [consFirst, lastFrag]
        | cons l2 ls2 =>
          simp [consFirst, lastFrag, List.cons_append]

theorem not_mem_lastFrag_splitOnChar (sep : Char) (cs : List Char) :
    sep ∉ lastFrag (splitOnChar sep cs) := by
  induction cs with
  | nil => simp [splitOnChar, lastFrag]
  | cons c cs ih =>
    by_cases h : c = sep
    · simp only [splitOnChar, if_pos h]
      rwa [lastFrag_cons_of_ne_nil [] (splitOnChar_ne_nil sep cs)]
    · simp only [splitOnChar, if_neg h]
      cases hcs : splitOnChar sep cs with
      | nil => exact absurd hcs (splitOnChar_ne_nil sep cs)
      | cons l ls =>
        rw [hcs] at ih
        cases ls with
        | nil =>
          simp only [lastFrag] at ih ⊢
          intro hc
          rcases List.mem_cons.mp hc with hc | hc
          · exact h hc.symm
          · exact ih hc
        | cons l2 ls2 =>
          rwa [lastFrag_cons_of_ne_nil (c :: l) (by simp : l2 :: ls2 ≠ []),
            ← lastFrag_cons_of_ne_nil l (by simp : l2 :: ls2 ≠ [])]

theorem splitOnChar_of_not_mem {sep : Char} {cs : List Char}
    (h : sep ∉ cs) : splitOnChar sep cs = [cs] := by
  induction cs with
  | nil => rfl
  | cons c cs ih =>
    have h1 : ¬c = sep := fun hc => h (hc ▸ List.mem_cons_self c cs)
    have h2 : sep ∉ cs := fun hc => h (List.mem_cons_of_mem c hc)
    simp only [splitOnChar, if_neg h1, ih h2]

/-! ### The byte decoder and the read loop compose across chunk boundaries -/

theorem decodeBytesAux_append (s : Utf8State) (c1 c2 : List Nat) :
    decodeBytesAux s (c1 ++ c2) =
      ((decodeBytesAux (decodeBytesAux s c1).1 c2).1,
       (decodeBytesAux s c1).2 ++ (decodeBytesAux (decodeBytesAux s c1).1 c2).2) := by
  induction c1 generalizing s with
  | nil => simp [decodeBytesAux]
  | cons b bs ih => simp [decodeBytesAux, ih]

theorem processChunk_append (st : StreamState) (c1 c2 : List Nat) :
    processChunk st (c1 ++ c2) =
      ((processChunk (processChunk st c1).1 c2).1,
       (processChunk st c1).2 ++ (processChunk (processChunk st c1).1 c2).2) := by
  unfold processChunk
  rw [decodeBytesAux_append]
  set t1 := (decodeBytesAux st.dec c1).2 with ht1
  set t2 := (decodeBytesAux (decodeBytesAux st.dec c1).1 c2).2 with ht2
  simp only
  set pa := splitOnChar '\n' (st.buffer ++ t1) with hpa
  have hsecond : splitOnChar '\n' (lastFrag pa ++ t2) =
      consFirst (lastFrag pa) (splitOnChar '\n' t2) := by
    rw [splitOnChar_append,
      splitOnChar_of_not_mem (not_mem_lastFrag_splitOnChar '\n' (st.buffer ++ t1))]
    simp [lastFrag]
  have hfull : splitOnChar '\n' (st.buffer ++ (t1 ++ t2)) =
      pa.dropLast ++ splitOnChar '\n' (lastFrag pa ++ t2) := by
    rw [← List.append_assoc, splitOnChar_append, hpa, hsecond]
  have hqne : splitOnChar '\n' (lastFrag pa ++ t2) ≠ [] :=
    splitOnChar_ne_nil '\n' _
  rw [hfull]
  rw [List.dropLast_append_of_ne_nil _ hqne, lastFrag_append_of_ne_nil _ hqne]
  simp [List.filterMap_append]

theorem processChunks_flatten (cs : List (List Nat)) :
    ∀ st : StreamState, cs ≠ [] →
      processChunks st cs = processChunk st cs.flatten := by
  induction cs with
  | nil => intro st h; exact absurd rfl h
  | cons c cs ih =>
    intro st _
    cases cs with
    | nil =>
      simp [processChunks, List.flatten]
    | cons c2 cs2 =>
      have hne : c2 :: cs2 ≠ [] := by simp
      have hstep : processChunks st (c :: c2 :: cs2) =
          ((processChunks (processChunk st c).1 (c2 :: cs2)).1,
           (processChunk st c).2 ++
             (processChunks (processChunk st c).1 (c2 :: cs2)).2) := rfl
      rw [hstep, ih _ hne]
      conv_rhs => rw [List.flatten_cons, processChunk_append st c (c2 :: cs2).flatten]

/-! ### Orchestrator helpers -/

theorem applyAppEvent_duplicate (st : RunState) (e : AppEvent) :
    (applyAppEvent st e).duplicate = st.duplicate := by
  cases e <;> rfl

theorem foldl_applyAppEvent_duplicate (events : List AppEvent) :
    ∀ st : RunState, (events.foldl applyAppEvent st).duplicate = st.duplicate := by
  induction events with
  | nil => intro st; rfl
  | cons e es ih =>
    intro st
    rw [List.foldl_cons, ih, applyAppEvent_duplicate]

theorem runPipeline_duplicate (st : RunState) (url : String) (resp : PipelineResponse) :
    (runPipeline st url resp).1.duplicate = none := by
  cases resp with
  | failure status body => rfl
  | noBody => rfl
  | stream events =>
    show (events.foldl applyAppEvent (preRun st)).duplicate = none
    rw [foldl_applyAppEvent_duplicate]
    rfl

theorem headFrag_splitOnChar (sep : Char) (cs : List Char) :
    headFrag (splitOnChar sep cs) = cs.takeWhile (fun c => c ≠ sep) := by
  induction cs with
  | nil => rfl
  | cons c cs ih =>
    by_cases h : c = sep
    · rw [splitOnChar_cons_of_eq _ h]
      simp [headFrag, List.takeWhile_cons, h]
    · rw [splitOnChar_cons_of_ne _ h]
      cases hcs : splitOnChar sep cs with
      | nil => exact absurd hcs (splitOnChar_ne_nil sep cs)
      | cons l ls =>
        rw [hcs] at ih
        simp only [consFirst, headFrag, List.takeWhile_cons] at ih ⊢
        simp [h, ih]

/-! ## Claims -/

/-- C1: the StepLedger reducer, applied to a list of step records and an
incoming step event, replaces in place the record (at position `i`) whose
`step` name is string-equal to the incoming event's, and otherwise appends
the incoming record at the end; consequently every ledger reduced from the
empty list has at most one record per distinct `step` name, and its records
are ordered by the first appearance of their keys. -/
theorem c1_step_ledger :
    (∀ (prev : List PipelineStep) (ev : PipelineStep) (i : Nat),
        prev.findIdx? (fun s => s.step == ev.step) = some i →
        stepLedgerReduce prev ev = prev.set i ev) ∧
    (∀ (prev : List PipelineStep) (ev : PipelineStep),
        (∀ r ∈ prev, r.step ≠ ev.step) →
        stepLedgerReduce prev ev = prev ++ [ev]) ∧
    (∀ evs : List PipelineStep,
        ((ledgerOf evs).map PipelineStep.step).Nodup ∧
        (ledgerOf evs).map PipelineStep.step =
          firstSeenKeys (evs.map PipelineStep.step)) := by
  refine ⟨?_, ?_, ?_⟩
  · intro prev ev i h
    simp [stepLedgerReduce, h]
  · intro prev ev h
    have hnone : prev.findIdx? (fun s => s.step == ev.step) = none := by
      rw [List.findIdx?_eq_none_iff]
      intro x hx
      simp [h x hx]
    simp [stepLedgerReduce, hnone]
  · intro evs
    constructor
    · rw [ledgerOf, keys_foldl]
      exact foldl_insertKey_nodup _ _ (by simp)
    · rw [ledgerOf, keys_foldl]
      rfl

theorem c1_step_ledger_witness :
    (([⟨"a", "running", none, none⟩, ⟨"b", "running", none, none⟩] :
        List PipelineStep).findIdx?
      (fun s => s.step == (⟨"b", "ok", some 5, none⟩ : PipelineStep).step) = some 1) ∧
    stepLedgerReduce [⟨"a", "running", none, none⟩, ⟨"b", "running", none, none⟩]
        ⟨"b", "ok", some 5, none⟩ =
      [⟨"a", "running", none, none⟩, ⟨"b", "ok", some 5, none⟩] :=
  ⟨rfl, c1_step_ledger.1 _ _ 1 rfl⟩

/-- C2: for every byte stream and every partition of it into chunks (byte
boundaries may fall inside a multi-byte UTF-8 character or inside a JSON
body), the read loop — stateful UTF-8 decoding, buffer accumulation, newline
splitting, retention of the last fragment — yields exactly the same sequence
of parsed events as delivering the whole stream as one chunk. -/
theorem c2_chunk_invariance (chunks : List (List Nat)) :
    sseEvents chunks = sseEvents [chunks.flatten] := by
  cases chunks with
  | nil => rfl
  | cons c cs =>
    unfold sseEvents
    rw [processChunks_flatten (c :: cs) streamInit (by simp),
      processChunks_flatten [(c :: cs).flatten] streamInit (by simp)]
    simp

/-- C3: the per-line event parser fires no callback when the line does not
start with `data: `, when the remainder after the prefix trims to empty, when
the remainder is not valid JSON, or when the parsed message's `type` field is
missing or is none of `step`/`result`/`error`; and a line on which no
callback fires contributes nothing to the event sequence of the read loop
(the surrounding lines are processed unchanged — no exception escapes). -/
theorem c3_event_parser_robust :
    (∀ line : List Char, dataMarker.isPrefixOf line = false →
        parseLine line = none) ∧
    (∀ line : List Char, jsTrim (line.drop 6) = [] → parseLine line = none) ∧
    (∀ line : List Char, jsonParse (jsTrim (line.drop 6)) = none →
        parseLine line = none) ∧
    (∀ (line : List Char) (msg : Json),
        jsonParse (jsTrim (line.drop 6)) = some msg →
        (∀ t : List Char, getField msg typeKey ≠ some (.str t)) →
        parseLine line = none) ∧
    (∀ (line : List Char) (msg : Json) (t : List Char),
        jsonParse (jsTrim (line.drop 6)) = some msg →
        getField msg typeKey = some (.str t) →
        t ≠ stepTag → t ≠ resultTag → t ≠ errorTag →
        parseLine line = none) ∧
    (∀ (ls1 ls2 : List (List Char)) (line : List Char), parseLine line = none →
        (ls1 ++ line :: ls2).filterMap parseLine =
          (ls1 ++ ls2).filterMap parseLine) := by
  refine ⟨?_, ?_, ?_, ?_, ?_, ?_⟩
  · intro line h
    simp [parseLine, h]
  · intro line h
    by_cases hp : dataMarker.isPrefixOf line <;> simp [parseLine, hp, h]
  · intro line h
    by_cases hp : dataMarker.isPrefixOf line <;>
      by_cases ht : jsTrim (line.drop 6) = [] <;> simp [parseLine, hp, ht, h]
  · intro line msg h hty
    by_cases hp : dataMarker.isPrefixOf line <;>
      by_cases ht : jsTrim (line.drop 6) = [] <;> simp only [parseLine, hp, ht, h,
        if_true, if_false, Bool.false_eq_true, reduceIte]
  · intro line msg t h hty h1 h2 h3
    by_cases hp : dataMarker.isPrefixOf line <;>
      by_cases ht : jsTrim (line.drop 6) = [] <;> simp only [parseLine, hp, ht, h,
        if_true, if_false, Bool.false_eq_true, reduceIte]
    rw [hty]
    simp [h1, h2, h3]
  · intro ls1 ls2 line h
    simp [List.filterMap_append, List.filterMap_cons, h]

theorem c3_event_parser_robust_witness :
    parseLine ("event: ping".toList) = none ∧
    parseLine ("data: \x7bnot valid json\x7d".toList) = none ∧
    parseLine ("data: \x7b\"type\":\"unknown\"\x7d".toList) = none ∧
    parseLine ("data:    ".toList) = none :=
  ⟨c3_event_parser_robust.1 _ rfl,
   c3_event_parser_robust.2.2.1 _ rfl,
   c3_event_parser_robust.2.2.2.2.1 _
     (.obj [("type".toList, .str "unknown".toList)]) ("unknown".toList) rfl rfl
     (by decide) (by decide) (by decide),
   c3_event_parser_robust.2.1 _ rfl⟩

/-- C4 counterexample: the claim fails for the empty-string URL.  `analyze`
with a positive duplicate lookup parks `""` as the pending submission
(a reachable `Prompting` state), but `confirmAnalyze` is guarded by the
truthiness of `pendingUrl`, so for the pending URL `""` it neither clears the
duplicate display nor issues any pipeline request — the claim promises it
clears the display and issues exactly one request. -/
theorem c4_counterexample :
    analyze initialState "" (.httpResponse true (some ⟨true, some "shop.com", none⟩))
        (.stream []) =
      ({ initialState with
          duplicate := some ⟨true, some "shop.com", none⟩
          pendingUrl := some "" }, ⟨"", []⟩) ∧
    (confirmAnalyze { initialState with
        duplicate := some ⟨true, some "shop.com", none⟩
        pendingUrl := some "" } (.stream [])).2 = [] ∧
    (confirmAnalyze { initialState with
        duplicate := some ⟨true, some "shop.com", none⟩
        pendingUrl := some "" } (.stream [])).1.duplicate =
      some ⟨true, some "shop.com", none⟩ :=
  ⟨rfl, rfl, rfl⟩

/-- C4 (amended): when the duplicate lookup reports `exists = true`, `analyze`
only stores the result and the pending URL and makes no pipeline request with
`isLoading` untouched; `dismissDuplicate` clears the duplicate display and
the pending slot (it makes no pipeline request by construction);
`confirmAnalyze` with a **nonempty** pending URL clears the duplicate
display, issues exactly one pipeline request for the originally submitted
URL and clears the pending slot; with no pending submission — or an
empty-string pending URL, which the truthiness guard treats the same way —
it is a no-op. -/
theorem c4_amended_duplicate_gate :
    (∀ (st : RunState) (url : String) (lookup : LookupResponse)
        (resp : PipelineResponse), (checkDuplicate lookup).«exists» = true →
        analyze st url lookup resp =
          ({ st with
              duplicate := some (checkDuplicate lookup)
              pendingUrl := some url }, ⟨extractDomain url, []⟩)) ∧
    (∀ st : RunState,
        dismissDuplicate st = { st with duplicate := none, pendingUrl := none }) ∧
    (∀ (st : RunState) (url : String) (resp : PipelineResponse),
        st.pendingUrl = some url → url ≠ "" →
        confirmAnalyze st resp =
          ({ (runPipeline { st with duplicate := none } url resp).1 with
              pendingUrl := none }, [url]) ∧
        (confirmAnalyze st resp).1.duplicate = none ∧
        (confirmAnalyze st resp).1.pendingUrl = none ∧
        (confirmAnalyze st resp).2 = [url]) ∧
    (∀ (st : RunState) (resp : PipelineResponse),
        st.pendingUrl = none ∨ st.pendingUrl = some "" →
        confirmAnalyze st resp = (st, [])) := by
  refine ⟨?_, ?_, ?_, ?_⟩
  · intro st url lookup resp h
    simp [analyze, h]
  · intro st
    rfl
  · intro st url resp h hne
    have hc : confirmAnalyze st resp =
        ({ (runPipeline { st with duplicate := none } url resp).1 with
            pendingUrl := none }, (runPipeline { st with duplicate := none } url resp).2) := by
      simp [confirmAnalyze, h, hne]
    refine ⟨hc, ?_, ?_, ?_⟩
    · rw [hc]
      show (runPipeline { st with duplicate := none } url resp).1.duplicate = none
      exact runPipeline_duplicate _ _ _
    · rw [hc]
    · rw [hc]
      rfl
  · intro st resp h
    rcases h with h | h <;> simp [confirmAnalyze, h]

theorem c4_amended_duplicate_gate_witness :
    ((checkDuplicate (.httpResponse true (some ⟨true, some "shop.com", some "2025-01-01"⟩))).«exists» = true ∧
     analyze initialState "https://shop.com"
        (.httpResponse true (some ⟨true, some "shop.com", some "2025-01-01"⟩))
        (.stream []) =
      ({ initialState with
          duplicate := some ⟨true, some "shop.com", some "2025-01-01"⟩
          pendingUrl := some "https://shop.com" }, ⟨"shop.com", []⟩)) ∧
    (confirmAnalyze { initialState with
        duplicate := some ⟨true, some "shop.com", some "2025-01-01"⟩
        pendingUrl := some "https://shop.com" } (.stream [])).2 = ["https://shop.com"] ∧
    confirmAnalyze initialState (.stream []) = (initialState, []) :=
  ⟨⟨rfl, c4_amended_duplicate_gate.1 initialState "https://shop.com" _ _ rfl⟩,
   (c4_amended_duplicate_gate.2.2.1 _ "https://shop.com" (.stream []) rfl
      (by decide)).2.2.2,
   c4_amended_duplicate_gate.2.2.2 initialState (.stream []) (Or.inl rfl)⟩

/-- C5: every failing lookup (transport error, non-success response,
unparseable body) yields `{ exists: false }`, and whenever the lookup reports
`exists = false` the pipeline is run immediately with the original URL — the
resulting state is exactly the pipeline run's state, so nothing about the
lookup failure is ever surfaced. -/
theorem c5_lookup_failure_defaults :
    (∀ lookup : LookupResponse, lookupFailed lookup →
        checkDuplicate lookup = ⟨false, none, none⟩) ∧
    (∀ (st : RunState) (url : String) (lookup : LookupResponse)
        (resp : PipelineResponse), (checkDuplicate lookup).«exists» = false →
        analyze st url lookup resp =
          ((runPipeline st url resp).1, ⟨extractDomain url, [url]⟩)) := by
  constructor
  · intro lookup h
    rcases h with h | ⟨b, h⟩ | h <;> subst h <;> rfl
  · intro st url lookup resp h
    simp [analyze, h, runPipeline]

theorem c5_lookup_failure_defaults_witness :
    (lookupFailed .transportError ∧
     checkDuplicate .transportError = ⟨false, none, none⟩) ∧
    ((checkDuplicate (.httpResponse false none)).«exists» = false ∧
     analyze initialState "https://x.com" (.httpResponse false none) (.stream []) =
       ((runPipeline initialState "https://x.com" (.stream [])).1,
        ⟨"x.com", ["https://x.com"]⟩)) :=
  ⟨⟨Or.inl rfl, c5_lookup_failure_defaults.1 .transportError (Or.inl rfl)⟩,
   ⟨rfl, c5_lookup_failure_defaults.2 initialState "https://x.com"
      (.httpResponse false none) (.stream []) rfl⟩⟩

/-- C6: a non-success pipeline response makes `analyzeUrlV2` throw (an
`Except.error`, not an `onError` callback); `runPipeline` catches it and
stores the message, ending with `isLoading = false` and the cleared
`results`.  The message is the body's `detail` field when it is a nonempty
string; when the body fails to parse it is exactly `Analysis failed`, and
when `detail` is absent it is the generic `HTTP <status>: Analysis failed`.
In the claim's scenario (status 500, body `\x7b"detail":"boom"\x7d`) the
exposed error is exactly `boom`, `results` stays `none`, and `isLoading`
ends `false`. -/
theorem c6_http_failure :
    (∀ (status : Nat) (body : Option Json),
        analyzeUrlV2Model (.failure status body) =
          .error (failureMessage status body)) ∧
    (∀ (st : RunState) (url : String) (status : Nat) (body : Option Json),
        runPipeline st url (.failure status body) =
          ({ preRun st with
              error := some (failureMessage status body)
              isLoading := false }, [url])) ∧
    (∀ (status : Nat) (j : Json) (d : List Char),
        getField j detailKey = some (.str d) → d ≠ [] →
        failureMessage status (some j) = String.mk d) ∧
    (∀ status : Nat, failureMessage status none = "Analysis failed") ∧
    (∀ (status : Nat) (j : Json), getField j detailKey = none →
        failureMessage status (some j) =
          "HTTP " ++ toString status ++ ": Analysis failed") ∧
    ((runPipeline initialState "https://x.com"
        (.failure 500 (some (.obj [(detailKey, .str "boom".toList)])))).1.error =
      some "boom" ∧
     (runPipeline initialState "https://x.com"
        (.failure 500 (some (.obj [(detailKey, .str "boom".toList)])))).1.results =
      none ∧
     (runPipeline initialState "https://x.com"
        (.failure 500 (some (.obj [(detailKey, .str "boom".toList)])))).1.isLoading =
      false) := by
  refine ⟨?_, ?_, ?_, ?_, ?_, rfl, rfl, rfl⟩
  · intro status body
    rfl
  · intro st url status body
    rfl
  · intro status j d h hd
    simp [failureMessage, h, jsTruthy, hd, jsDisplay]
  · intro status
    rfl
  · intro status j h
    simp [failureMessage, h]

theorem c6_http_failure_witness :
    (getField (.obj [(detailKey, .str "boom".toList)]) detailKey =
        some (.str "boom".toList) ∧
      failureMessage 500 (some (.obj [(detailKey, .str "boom".toList)])) =
        String.mk "boom".toList) ∧
    (getField (.obj [("x".toList, .num 1)]) detailKey = none ∧
      failureMessage 500 (some (.obj [("x".toList, .num 1)])) =
        "HTTP " ++ toString 500 ++ ": Analysis failed") :=
  ⟨⟨rfl, c6_http_failure.2.2.1 500 _ ("boom".toList) rfl (by decide)⟩,
   ⟨rfl, c6_http_failure.2.2.2.2.1 500 _ rfl⟩⟩

/-- C7: every run that reaches the pipeline issues the request from the state
`preRun st`, which has `isLoading = true` and `error`, `results`, `steps`,
`duplicate` cleared to their initial values; and on every termination path of
`runPipeline` — stream completion, thrown setup failure, missing body —
`isLoading` is set back to `false`. -/
theorem c7_loading_lifecycle :
    (∀ st : RunState, (preRun st).isLoading = true ∧ (preRun st).error = none ∧
        (preRun st).results = none ∧ (preRun st).steps = [] ∧
        (preRun st).duplicate = none) ∧
    (∀ (st : RunState) (url : String) (resp : PipelineResponse),
        (runPipeline st url resp).1.isLoading = false) := by
  constructor
  · intro st
    exact ⟨rfl, rfl, rfl, rfl, rfl⟩
  · intro st url resp
    rfl

/-- C8 counterexample: the claim omits the `url.trim()` the code performs
first, so on a URL with leading whitespace the code's domain and the spec's
derivation disagree. -/
theorem c8_counterexample :
    extractDomain " https://Example.COM/path" = "example.com" ∧
    claimDomain " https://Example.COM/path" = " https:" ∧
    extractDomain " https://Example.COM/path" ≠
      claimDomain " https://Example.COM/path" := by
  refine ⟨by decide, by decide, by decide⟩

/-- C8 (amended): for every input URL the duplicate-check domain is derived by
trimming surrounding whitespace, then stripping a leading `http://` or
`https://`, taking the substring before the first `/`, and lowercasing; in
particular `https://Example.COM/path?x=1` yields `example.com`. -/
theorem c8_amended_domain :
    (∀ url : String, extractDomain url = claimDomainTrimmed url) ∧
    extractDomain "https://Example.COM/path?x=1" = "example.com" := by
  constructor
  · intro url
    unfold extractDomain claimDomainTrimmed
    rw [headFrag_splitOnChar]
  · rfl

/-- C9 counterexample: `reset()` does not clear `isLoading`; from a state
with `isLoading = true` it does not return the state to the all-null/empty
initial state. -/
theorem c9_counterexample :
    (reset { initialState with isLoading := true }).isLoading = true ∧
    reset { initialState with isLoading := true } ≠ initialState := by
  refine ⟨rfl, ?_⟩
  intro h
  have h2 := congrArg RunState.isLoading h
  simp [reset, initialState] at h2

/-- C9 (amended): `reset()`, in every state, clears `results`, `steps`,
`error`, `duplicate` and the pending submission back to their initial values,
and leaves `isLoading` unchanged (it is only lowered by a run's own
termination). -/
theorem c9_amended_reset :
    ∀ st : RunState,
      reset st = { st with
        results := none
        steps := []
        error := none
        duplicate := none
        pendingUrl := none } ∧
      (reset st).isLoading = st.isLoading :=
  fun _ => ⟨rfl, rfl⟩

/-- C10: when the duplicate lookup reports `exists = true`, `analyze` sets
only the `duplicate` field and the pending slot: `results`, `steps`, `error`
and `isLoading` are left unchanged (a previous run's results or error stay
observable while the prompt is outstanding), and no pipeline request is
made. -/
theorem c10_duplicate_frame :
    ∀ (st : RunState) (url : String) (lookup : LookupResponse)
      (resp : PipelineResponse), (checkDuplicate lookup).«exists» = true →
      (analyze st url lookup resp).1.results = st.results ∧
      (analyze st url lookup resp).1.steps = st.steps ∧
      (analyze st url lookup resp).1.error = st.error ∧
      (analyze st url lookup resp).1.isLoading = st.isLoading ∧
      (analyze st url lookup resp).1.duplicate = some (checkDuplicate lookup) ∧
      (analyze st url lookup resp).1.pendingUrl = some url ∧
      (analyze st url lookup resp).2.pipelineRequests = [] := by
  intro st url lookup resp h
  simp [analyze, h]

theorem c10_duplicate_frame_witness :
    (checkDuplicate (.httpResponse true (some ⟨true, some "shop.com", none⟩))).«exists» = true ∧
    (analyze { initialState with error := some "old", results := some (.obj []) }
        "https://shop.com"
        (.httpResponse true (some ⟨true, some "shop.com", none⟩))
        (.stream [])).1.error = some "old" :=
  ⟨rfl,
   (c10_duplicate_frame { initialState with error := some "old", results := some (.obj []) }
      "https://shop.com" (.httpResponse true (some ⟨true, some "shop.com", none⟩))
      (.stream []) rfl).2.2.1⟩

end EnrichmentBot
